import Mathlib

/-!
Shallow embedding of the decillion/go-cmap repository.

The embedded code is the first (final-design) variant of each source file:

* `src/hmap.go` — package `hmap`: a fixed-capacity separate-chaining hash map
  with logical deletion (tombstones) and writer-only statistics
  (`statMapSize`, `statDeleted`, `statLargest`, per-bucket `statEntries`).
* `src/cmap/cmap.go` — package `cmap`: wraps an `hmap.Map` behind an atomic
  reference and rebuilds it when load/tombstone thresholds are crossed
  (`resizeIfNeeded` copies live entries into the new table).
* `src/concmap/concmap.go` — package `concmap`: same wrapper with a writer
  mutex and `LoadOrStore`; its `resizeMap` publishes a fresh table.

Modelling conventions:

* The model is sequential: the writer mutex, `atomic.Value` indirection and
  atomic load/store wrappers are erased; an outer map state is simply the
  current inner `Hmap` value.  Every atomic pointer chase in the Go code is a
  pure field access here.
* Go `interface{}` keys and values are modelled parametrically (`K`, `V`);
  the outer packages, whose resize logic compares values against a `uint32`
  counter, are instantiated at `K = V = Nat` (a `Nat` value stands for a Go
  value of dynamic type `uint32`).
* An entry's value slot holds `some v` (live) or `none` (the `deleted`
  tombstone sentinel).  The chain-terminating sentinel entry (key
  `terminal`) is represented by the end of the Lean list, so a Go chain
  `e1 -> e2 -> sentinel` is the list `[e1, e2]`.
* The `uint32` statistics counters are modelled as `Nat`.  All theorems in
  this file concern the regime below `2^32` entries, where `Nat` and
  `uint32` arithmetic agree (the guarded `statDeleted--` never executes at
  zero in any state reachable from a fresh table, see the counter
  invariants below).
* `float32` load-factor comparisons (`float32(entries)/float32(buckets) > 6`
  and `< 2`) are modelled as the exact comparisons `6 * buckets < entries`
  and `entries < 2 * buckets`; these agree with `float32` arithmetic for all
  counts below `2^24`.
-/

/-- One chain entry of `hmap.Map`: an immutable key and an atomically read
value slot.  `val = none` models the `deleted` tombstone sentinel. -/
structure Entry (K V : Type) where
  key : K
  val : Option V
  deriving Repr, DecidableEq

/-- A bucket of `hmap.Map`: the chain reachable from the atomic `first`
pointer (sentinel terminator omitted, it is the end of the list) and the
writer-only `statEntries` counter. -/
structure Bucket (K V : Type) where
  chain : List (Entry K V)
  statEntries : Nat
  deriving Repr, DecidableEq

/-- The `hmap.Map` structure: hash function, bucket array and the
writer-only statistics counters. -/
structure Hmap (K V : Type) where
  hasher : K → Nat
  buckets : List (Bucket K V)
  statLargest : Nat
  statMapSize : Nat
  statDeleted : Nat

/-- `hmap.NewMap`: `capacity` buckets, each holding only its terminal
sentinel entry (the empty list here), all statistics zero. -/
def Hmap.NewMap (capacity : Nat) (hasher : K → Nat) : Hmap K V :=
  { hasher := hasher
    buckets := List.replicate capacity ⟨[], 0⟩
    statLargest := 0
    statMapSize := 0
    statDeleted := 0 }

/-- The key predicate used by `findEntry`'s chain walk
(`e.key != key && e.key != terminal`): the walk stops at the first entry
whose key equals the requested key, or at the sentinel (list end). -/
def keyIs [DecidableEq K] (k : K) (e : Entry K V) : Bool :=
  decide (e.key = k)

/-- The chain walk of `hmap.findEntry`: the first entry with the given key,
or `none` when only the terminal sentinel matches. -/
def chainFind [DecidableEq K] (c : List (Entry K V)) (k : K) : Option (Entry K V) :=
  c.find? (keyIs k)

/-- `e.storeValue(x)` on the entry returned by `findEntry`: replace the value
slot of the first entry carrying the key.  Used by both `Store` (live value)
and `Delete` (tombstone).  The entry's key is never touched. -/
def setFirstVal [DecidableEq K] : List (Entry K V) → K → Option V → List (Entry K V)
  | [], _, _ => []
  | e :: es, k, w =>
      if e.key = k then { e with val := w } :: es else e :: setFirstVal es k w

/-- Bucket index computed by `hmap.findEntry`:
`m.hasher(key) % uint32(len(m.buckets))`.  Meaningful only when the bucket
slice is nonempty; Go panics (integer divide by zero) when it is empty. -/
def Hmap.bucketIdx (m : Hmap K V) (k : K) : Nat :=
  m.hasher k % m.buckets.length

/-- The chain of the bucket that `findEntry` selects for `k`. -/
def Hmap.chainAt [DecidableEq K] (m : Hmap K V) (k : K) : List (Entry K V) :=
  (m.buckets.getD (m.bucketIdx k) ⟨[], 0⟩).chain

/-- `hmap.Map.Load`: `findEntry`, then read the value slot; a tombstone or a
missing key yields Go's `(nil, false)`, modelled as `none`. -/
def Hmap.Load [DecidableEq K] (m : Hmap K V) (k : K) : Option V :=
  if m.buckets.length = 0 then none -- Go: findEntry panics (divide by zero)
  else
    match chainFind (m.chainAt k) k with
    | some e => e.val
    | none => none

/-- `hmap.Map.Store`.  Found case: decrement `statDeleted` when the entry was
tombstoned, then overwrite the value slot.  Not-found case: bump
`statMapSize` and the bucket's `statEntries`, bump `statLargest` by one when
the bucket counter now exceeds it, and prepend a fresh live entry at the
chain head. -/
def Hmap.Store [DecidableEq K] (m : Hmap K V) (k : K) (v : V) : Hmap K V :=
  if m.buckets.length = 0 then m -- Go: findEntry panics (divide by zero)
  else
    let i := m.bucketIdx k
    let b := m.buckets.getD i ⟨[], 0⟩
    match chainFind b.chain k with
    | some e =>
        let d := match e.val with
          | none => m.statDeleted - 1 -- `if v == deleted { m.statDeleted-- }`
          | some _ => m.statDeleted
        { m with
            statDeleted := d
            buckets := m.buckets.set i { b with chain := setFirstVal b.chain k (some v) } }
    | none =>
        { m with
            statMapSize := m.statMapSize + 1
            statLargest :=
              if b.statEntries + 1 > m.statLargest then m.statLargest + 1
              else m.statLargest
            buckets := m.buckets.set i
              { chain := ⟨k, some v⟩ :: b.chain, statEntries := b.statEntries + 1 } }

/-- `hmap.Map.Delete`: when the key exists, increment `statDeleted` unless
the entry already holds the tombstone, then store the tombstone.  The entry
is never unlinked. -/
def Hmap.Delete [DecidableEq K] (m : Hmap K V) (k : K) : Hmap K V :=
  if m.buckets.length = 0 then m -- Go: findEntry panics (divide by zero)
  else
    let i := m.bucketIdx k
    let b := m.buckets.getD i ⟨[], 0⟩
    match chainFind b.chain k with
    | some e =>
        let d := match e.val with
          | none => m.statDeleted -- already a tombstone: counter untouched
          | some _ => m.statDeleted + 1
        { m with
            statDeleted := d
            buckets := m.buckets.set i { b with chain := setFirstVal b.chain k none } }
    | none => m

/-- The walk of one bucket chain in `hmap.Map.Range`, returning the pairs on
which the visitor is invoked, in visitation order.  The source calls
`f(e.key, v)` and discards the returned `bool`, so the walk continues
regardless of the visitor's answer. -/
def rangeChain (f : K → V → Bool) : List (Entry K V) → List (K × V)
  | [] => []
  | e :: es =>
      match e.val with
      | none => rangeChain f es -- tombstoned entries are skipped
      | some v =>
          let _stop := f e.key v -- result of the visitor call is discarded
          (e.key, v) :: rangeChain f es

/-- `hmap.Map.Range`: buckets in slice order, each chain from its head; the
result lists every pair passed to the visitor, in order. -/
def Hmap.rangeVisits (m : Hmap K V) (f : K → V → Bool) : List (K × V) :=
  (m.buckets.map (fun b => rangeChain f b.chain)).flatten

/-- The `e.key != terminal`-guarded walk of `findEntry` divides the hash by
the bucket count; with zero buckets every keyed operation
(`Load`/`Store`/`Delete`) panics at run time with a divide-by-zero.
`Range` only iterates the (empty) bucket slice and does not panic. -/
def Hmap.keyedOpPanics (m : Hmap K V) : Bool :=
  m.buckets.length == 0

/-! ## Outer maps

`cmap.Map` and `concmap.Map` wrap an `hmap.Map` behind an `atomic.Value`
(and, for `concmap`, a writer mutex).  Sequentially the outer state is just
the current inner table, so the outer operations are functions
`Hmap Nat Nat → Hmap Nat Nat` (keys and values instantiated at `Nat`; a
value `n : Nat` models a Go value of dynamic type `uint32`).  Both packages
share the constants `iniMapCap = 16`, `minMapSize = 64`, `lowerBound = 2`,
`defaultLF = 4`, `upperBound = 6` and delegate `Load`/`Range` to the inner
table unchanged. -/

/-- The resize trigger computed by `cmap.resizeIfNeeded`: `false` when
`entries < minMapSize`; otherwise `tooSmallBuckets || tooLargeBuckets ||
tooManyDeleted` with `loadFactor = entries / buckets` (the `float32`
quotient, modelled exactly). -/
def cmapShouldResize (entries deleted buckets : Nat) : Bool :=
  if entries < 64 then false
  else
    decide (6 * buckets < entries) -- loadFactor > upperBound
    || decide (entries < 2 * buckets) -- loadFactor < lowerBound
    || decide (entries < 2 * deleted) -- tooManyDeleted

/-- `cmap.resizeIfNeeded`.  When triggered it allocates
`hmap.NewMap(max(realEntries/defaultLF, iniMapCap))` and copies entries by
ranging over the old table.  The Go guard in the copy callback is
`if v != deleted`: the identifier `deleted` there is the local
`uint32` variable `deleted := hmap.NumOfDeleted(h)` (it shadows any
sentinel), so a live value is copied only when, as a Go interface value, it
differs from that count — for `uint32`-typed values, only when `kv.2 ≠
deleted`. -/
def cmapResizeIfNeeded (m : Hmap Nat Nat) : Hmap Nat Nat :=
  let entries := m.statMapSize
  let buckets := m.buckets.length
  let deleted := m.statDeleted
  let realEntries := entries - deleted
  if cmapShouldResize entries deleted buckets then
    let newMap : Hmap Nat Nat := Hmap.NewMap (Nat.max (realEntries / 4) 16) m.hasher
    (m.rangeVisits (fun _ _ => true)).foldl
      (fun acc kv => if kv.2 ≠ deleted then acc.Store kv.1 kv.2 else acc) newMap
  else m

/-- `cmap.Map.Store`: delegate to the inner `Store`, then run
`resizeIfNeeded`. -/
def cmapStore (m : Hmap Nat Nat) (k v : Nat) : Hmap Nat Nat :=
  cmapResizeIfNeeded (m.Store k v)

/-- `cmap.Map.Delete`: delegate to the inner `Delete`, then run
`resizeIfNeeded`. -/
def cmapDelete (m : Hmap Nat Nat) (k : Nat) : Hmap Nat Nat :=
  cmapResizeIfNeeded (m.Delete k)

/-- The resize trigger of `concmap.resizeMap`: identical to `cmap`'s except
that `tooLargeBuckets` additionally requires `entries > minMapSize`. -/
def concmapShouldResize (entries deleted buckets : Nat) : Bool :=
  if entries < 64 then false
  else
    decide (6 * buckets < entries) -- loadFactor > upperBound
    || (decide (entries < 2 * buckets) && decide (64 < entries))
    || decide (entries < 2 * deleted) -- tooManyDeleted

/-- `concmap.resizeMap`.  When triggered it allocates
`hmap.NewMap(max(realEntries/defaultLF, iniMapCap))` and immediately stores
it as the current table: unlike `cmap.resizeIfNeeded`, nothing is copied
from the old table into the new one. -/
def concmapResizeMap (m : Hmap Nat Nat) : Hmap Nat Nat :=
  let entries := m.statMapSize
  let buckets := m.buckets.length
  let deleted := m.statDeleted
  let realEntries := entries - deleted
  if concmapShouldResize entries deleted buckets then
    Hmap.NewMap (Nat.max (realEntries / 4) 16) m.hasher
  else m

/-- `concmap.Map.Store`: inner `Store` under the mutex, then `resizeMap`. -/
def concmapStore (m : Hmap Nat Nat) (k v : Nat) : Hmap Nat Nat :=
  concmapResizeMap (m.Store k v)

/-- `concmap.Map.Delete`: inner `Delete` under the mutex, then `resizeMap`. -/
def concmapDelete (m : Hmap Nat Nat) (k : Nat) : Hmap Nat Nat :=
  concmapResizeMap (m.Delete k)

/-- `concmap.Map.LoadOrStore`: lock-free `Load`; when absent, re-`Load`
under the mutex (double-checked; sequentially the two loads agree) and
`Store` when still absent.  No resize runs on this path — the stored-case
result is the plain `Hmap.Store` of the inner table. -/
def concmapLoadOrStore [DecidableEq K] (m : Hmap K V) (k : K) (v : V) :
    Hmap K V × V × Bool :=
  match m.Load k with
  | some w => (m, w, true)
  | none =>
      match m.Load k with -- the repeated lookup under the writer mutex
      | some w => (m, w, true)
      | none => (m.Store k v, v, false)

/-- One writer operation on an inner table. -/
inductive HOp (K V : Type) where
  | store (k : K) (v : V)
  | del (k : K)

/-- Apply one writer operation at the `hmap` level. -/
def hApply [DecidableEq K] (m : Hmap K V) : HOp K V → Hmap K V
  | .store k v => m.Store k v
  | .del k => m.Delete k

/-- Run a sequence of writer operations at the `hmap` level. -/
def hRun [DecidableEq K] (m : Hmap K V) (ops : List (HOp K V)) : Hmap K V :=
  ops.foldl hApply m

/-- Apply one writer operation at the `cmap` level (with resize). -/
def cmapApply (m : Hmap Nat Nat) : HOp Nat Nat → Hmap Nat Nat
  | .store k v => cmapStore m k v
  | .del k => cmapDelete m k

/-- Run a sequence of writer operations on a `cmap.Map`. -/
def cmapRun (m : Hmap Nat Nat) (ops : List (HOp Nat Nat)) : Hmap Nat Nat :=
  ops.foldl cmapApply m

/-- Apply one writer operation at the `concmap` level (with resize). -/
def concmapApply (m : Hmap Nat Nat) : HOp Nat Nat → Hmap Nat Nat
  | .store k v => concmapStore m k v
  | .del k => concmapDelete m k

/-- Run a sequence of writer operations on a `concmap.Map`. -/
def concmapRun (m : Hmap Nat Nat) (ops : List (HOp Nat Nat)) : Hmap Nat Nat :=
  ops.foldl concmapApply m

/-- The naive reference dictionary of the spec (and of the repository's own
`TestMachesBuiltInMap`): the most recent `store` wins, `del` removes. -/
def dictApply [DecidableEq K] (d : K → Option V) : HOp K V → K → Option V
  | .store k v => fun q => if q = k then some v else d q
  | .del k => fun q => if q = k then none else d q

/-- Run a sequence of operations on the naive dictionary, starting empty. -/
def dictRun [DecidableEq K] (ops : List (HOp K V)) : K → Option V :=
  ops.foldl dictApply (fun _ => none)

/-! ## Concrete scenarios

All concrete runs use the identity hash function; the resize triggers
examined below depend only on the statistics counters, not on how keys
spread over buckets. -/

/-- Identity hash used for all concrete scenarios. -/
def idh : Nat → Nat := fun k => k

/-- Store the keys `0..63`, each with the `uint32` value `33`. -/
def stores64 : List (HOp Nat Nat) := (List.range 64).map (fun k => HOp.store k 33)

/-- Delete the keys `0..31`. -/
def dels32 : List (HOp Nat Nat) := (List.range 32).map (fun k => HOp.del k)

/-- The `cmap` state after `stores64 ++ dels32`: 64 physical entries, 32
tombstones, 16 buckets; no resize has fired yet. -/
def shadowPre : Hmap Nat Nat := cmapRun (Hmap.NewMap 16 idh) (stores64 ++ dels32)

/-- The old inner table immediately before the rebuild: one more `Delete`
raises the tombstone count to 33, and `64 < 2 * 33` trips the
`tooManyDeleted` trigger.  Keys `33..63` are still live with value `33`. -/
def shadowMid : Hmap Nat Nat := shadowPre.Delete 32

/-- Store the keys `0..96` with value `0` (97 fresh keys). -/
def grow97 : List (HOp Nat Nat) := (List.range 97).map (fun k => HOp.store k 0)

/-- The old inner table right before `concmap`'s growth rebuild: the 97th
store has just executed at the `hmap` level. -/
def concPre : Hmap Nat Nat := hRun (Hmap.NewMap 16 idh) grow97

/-- A state whose statistics trip the `cmap` growth trigger, for the
witness below. -/
def resizeDemo : Hmap Nat Nat :=
  { Hmap.NewMap 16 idh with statMapSize := 97 }

/-- A state at `E = 64`, `B = 36` where `concmap` does not rebuild, for the
witness below. -/
def resizeDemo64 : Hmap Nat Nat :=
  { Hmap.NewMap 36 idh with statMapSize := 64 }

/-- Phase 1 of the C3 counterexample run: 97 fresh stores from a fresh
`concmap` map; the 97th trips the growth trigger and `resizeMap` publishes
an (empty) 24-bucket table. -/
def c3p1 : List (HOp Nat Nat) := (List.range 97).map (fun k => HOp.store k 0)

/-- Phase 2a: 96 fresh stores on the 24-bucket table (no trigger fires). -/
def c3p2a : List (HOp Nat Nat) := (List.range 96).map (fun k => HOp.store k 0)

/-- Phase 2b: 49 more fresh stores; the 145th entry trips the growth
trigger and `resizeMap` publishes an (empty) 36-bucket table. -/
def c3p2b : List (HOp Nat Nat) := (List.range 49).map (fun j => HOp.store (96 + j) 0)

/-- Phase 3: 64 fresh stores on the 36-bucket table. -/
def c3p3 : List (HOp Nat Nat) := (List.range 64).map (fun k => HOp.store k 0)

/-- The whole C3 operation sequence (306 `concmap` stores). -/
def c3ops : List (HOp Nat Nat) := c3p1 ++ (c3p2a ++ (c3p2b ++ c3p3))

/-- The intermediate state after phase 2a: 96 entries spread 4 per bucket
over 24 buckets. -/
def c3mid : Hmap Nat Nat :=
  { hasher := idh
    buckets := (List.range 24).map
      (fun i => ⟨[⟨72 + i, some 0⟩, ⟨48 + i, some 0⟩, ⟨24 + i, some 0⟩, ⟨i, some 0⟩], 4⟩)
    statLargest := 4
    statMapSize := 96
    statDeleted := 0 }

/-- A two-entry map: keys 0 and 1 live in separate buckets. -/
def twoEntryMap : Hmap Nat Nat :=
  hRun (Hmap.NewMap 2 idh) [HOp.store 0 10, HOp.store 1 20]

/-- A one-bucket map in which key 5 is tombstoned: the tombstone counter is
already 1 before the C6 sequence starts. -/
def tombstonedPre : Hmap Nat Nat := hRun (Hmap.NewMap 1 idh) [HOp.store 5 0, HOp.del 5]

/-- Number of tombstoned entries physically present in a chain. -/
def tombLen (c : List (Entry K V)) : Nat :=
  (c.filter (fun e => e.val.isNone)).length

/-- Whether `findEntry` currently sees key `k` as a tombstoned entry (the
check `v == deleted` performed by `Store` on the found entry). -/
def Hmap.isTombstoned [DecidableEq K] (m : Hmap K V) (k : K) : Bool :=
  if m.buckets.length = 0 then false
  else
    match chainFind (m.chainAt k) k with
    | some e => e.val.isNone
    | none => false

/-- Number of non-sentinel entries physically present in all bucket chains. -/
def physCount (m : Hmap K V) : Nat :=
  (m.buckets.map (fun b => b.chain.length)).sum

/-- Number of entries whose value slot currently holds the tombstone. -/
def tombCount (m : Hmap K V) : Nat :=
  (m.buckets.map (fun b => tombLen b.chain)).sum

/-- Length of the longest bucket chain. -/
def maxChainLen (m : Hmap K V) : Nat :=
  (m.buckets.map (fun b => b.chain.length)).foldr Nat.max 0

/-- The statistics counters agree with the physical contents: every
per-bucket counter is its chain length, `statMapSize` is the physical entry
count, `statDeleted` the tombstone count and `statLargest` the largest
bucket size. -/
def StatsInv (m : Hmap K V) : Prop :=
  (∀ b ∈ m.buckets, b.statEntries = b.chain.length) ∧
  m.statMapSize = physCount m ∧
  m.statDeleted = tombCount m ∧
  m.statLargest = maxChainLen m

/-! ## Theorems -/

example : (Hmap.NewMap 4 (fun k => k) : Hmap Nat Nat).buckets.length = 4 := by decide

example :
    ((Hmap.NewMap 4 (fun k => k) : Hmap Nat Nat).Store 1 10).Load 1 = some 10 := by decide

example :
    (((Hmap.NewMap 4 (fun k => k) : Hmap Nat Nat).Store 1 10).Delete 1).Load 1 = none := by
  decide

example :
    (((Hmap.NewMap 4 (fun k => k) : Hmap Nat Nat).Store 1 10).Store 5 7).rangeVisits
      (fun _ _ => true) = [(5, 7), (1, 10)] := by decide

set_option maxRecDepth 2000000 in
example : (shadowMid.statMapSize, shadowMid.statDeleted, shadowMid.buckets.length)
    = (64, 33, 16) := by decide

set_option maxRecDepth 2000000 in
/-- C1.  The sequence `stores64 ++ dels32 ++ [del 32]` on `cmap.Map` loses
every live key: the final delete trips the tombstone trigger and the rebuild
copy's guard `v != deleted` (the shadowed local count, 33) discards every
live value 33, so `Load 63` answers absent while the reference dictionary
still maps 63 to 33.  On `concmap.Map`, merely storing 97 fresh keys loses
all of them: the growth rebuild publishes an empty table. -/
theorem claim1_failing :
    (cmapRun (Hmap.NewMap 16 idh) (stores64 ++ dels32 ++ [HOp.del 32])).Load 63 = none ∧
    dictRun (stores64 ++ dels32 ++ [HOp.del 32]) 63 = some 33 ∧
    (concmapRun (Hmap.NewMap 16 idh) grow97).Load 0 = none ∧
    dictRun grow97 0 = some 0 := by
  exact ⟨by decide, by decide, by decide, by decide⟩

set_option maxRecDepth 2000000 in
/-- C2.  Live keys are dropped by the rebuild.  `cmap`: in `shadowMid`, key
63 is live with value 33 immediately before the rebuild, yet after
`resizeIfNeeded` publishes the new table the key is gone — the copy guard
`v != deleted` compares each value against the local tombstone count 33.
`concmap`: key 0 is live in `concPre` before the rebuild, and `resizeMap`
publishes a fresh table without copying anything. -/
theorem claim2_failing :
    shadowMid.Load 63 = some 33 ∧
    cmapShouldResize shadowMid.statMapSize shadowMid.statDeleted shadowMid.buckets.length
      = true ∧
    (cmapResizeIfNeeded shadowMid).Load 63 = none ∧
    concPre.Load 0 = some 0 ∧
    concmapShouldResize concPre.statMapSize concPre.statDeleted concPre.buckets.length
      = true ∧
    (concmapResizeMap concPre).Load 0 = none := by
  exact ⟨by decide, by decide, by decide, by decide, by decide, by decide⟩

theorem NewMap_buckets_length (c : Nat) (h : K → Nat) :
    (Hmap.NewMap c h : Hmap K V).buckets.length = c := by
  simp [Hmap.NewMap]

theorem Store_buckets_length [DecidableEq K] (m : Hmap K V) (k : K) (v : V) :
    (m.Store k v).buckets.length = m.buckets.length := by
  simp only [Hmap.Store]
  split
  · rfl
  · split <;> simp

theorem Delete_buckets_length [DecidableEq K] (m : Hmap K V) (k : K) :
    (m.Delete k).buckets.length = m.buckets.length := by
  simp only [Hmap.Delete]
  split
  · rfl
  · split <;> simp

theorem copyFold_buckets_length (ps : List (Nat × Nat)) (d : Nat) (acc : Hmap Nat Nat) :
    (ps.foldl (fun acc kv => if kv.2 ≠ d then acc.Store kv.1 kv.2 else acc) acc).buckets.length
      = acc.buckets.length := by
  induction ps generalizing acc with
  | nil => rfl
  | cons p ps ih =>
      simp only [List.foldl_cons]
      rw [ih]
      split <;> simp [Store_buckets_length]

/-- When the `cmap` trigger fires, the published table has
`max(realEntries/defaultLF, iniMapCap)` buckets; otherwise the table is
untouched. -/
theorem cmapResize_buckets (m : Hmap Nat Nat) :
    (cmapShouldResize m.statMapSize m.statDeleted m.buckets.length = true →
      (cmapResizeIfNeeded m).buckets.length
        = Nat.max ((m.statMapSize - m.statDeleted) / 4) 16) ∧
    (cmapShouldResize m.statMapSize m.statDeleted m.buckets.length = false →
      cmapResizeIfNeeded m = m) := by
  constructor <;> intro h
  · simp only [cmapResizeIfNeeded, h, if_true]
    rw [copyFold_buckets_length, NewMap_buckets_length]
  · simp [cmapResizeIfNeeded, h]

/-- When the `concmap` trigger fires, the published table has
`max(realEntries/defaultLF, iniMapCap)` buckets; otherwise the table is
untouched. -/
theorem concmapResize_buckets (m : Hmap Nat Nat) :
    (concmapShouldResize m.statMapSize m.statDeleted m.buckets.length = true →
      (concmapResizeMap m).buckets.length
        = Nat.max ((m.statMapSize - m.statDeleted) / 4) 16) ∧
    (concmapShouldResize m.statMapSize m.statDeleted m.buckets.length = false →
      concmapResizeMap m = m) := by
  constructor <;> intro h
  · simp only [concmapResizeMap, h, if_true]
    rw [NewMap_buckets_length]
  · simp [concmapResizeMap, h]

/-- C3 (amended).  The `cmap` resize decision is exactly the claimed one:
rebuild iff `E ≥ 64` and (`L > 6` or `L < 2` or `E < 2D`), with the new
bucket count `max((E − D)/4, 16)`.  The `concmap` decision differs in one
point: its sparseness trigger `L < 2` additionally requires `E > 64`.  When
no trigger fires, both leave the table untouched. -/
theorem claim3_amended (m : Hmap Nat Nat) :
    (cmapShouldResize m.statMapSize m.statDeleted m.buckets.length = true ↔
      64 ≤ m.statMapSize ∧
        (6 * m.buckets.length < m.statMapSize ∨
          m.statMapSize < 2 * m.buckets.length ∨
          m.statMapSize < 2 * m.statDeleted)) ∧
    (concmapShouldResize m.statMapSize m.statDeleted m.buckets.length = true ↔
      64 ≤ m.statMapSize ∧
        (6 * m.buckets.length < m.statMapSize ∨
          (m.statMapSize < 2 * m.buckets.length ∧ 64 < m.statMapSize) ∨
          m.statMapSize < 2 * m.statDeleted)) ∧
    (cmapShouldResize m.statMapSize m.statDeleted m.buckets.length = true →
      (cmapResizeIfNeeded m).buckets.length
        = Nat.max ((m.statMapSize - m.statDeleted) / 4) 16) ∧
    (cmapShouldResize m.statMapSize m.statDeleted m.buckets.length = false →
      cmapResizeIfNeeded m = m) ∧
    (concmapShouldResize m.statMapSize m.statDeleted m.buckets.length = true →
      (concmapResizeMap m).buckets.length
        = Nat.max ((m.statMapSize - m.statDeleted) / 4) 16) ∧
    (concmapShouldResize m.statMapSize m.statDeleted m.buckets.length = false →
      concmapResizeMap m = m) := by
  refine ⟨?_, ?_, (cmapResize_buckets m).1, (cmapResize_buckets m).2,
    (concmapResize_buckets m).1, (concmapResize_buckets m).2⟩
  · simp only [cmapShouldResize]
    split <;> simp <;> omega
  · simp only [concmapShouldResize]
    split <;> simp <;> omega

/-- Witness for `claim3_amended` at concrete inputs. -/
theorem claim3_amended_witness :
    (cmapResizeIfNeeded resizeDemo).buckets.length
        = Nat.max ((resizeDemo.statMapSize - resizeDemo.statDeleted) / 4) 16 ∧
      concmapResizeMap resizeDemo64 = resizeDemo64 :=
  ⟨(claim3_amended resizeDemo).2.2.1 (by decide),
   (claim3_amended resizeDemo64).2.2.2.2.2 (by decide)⟩

set_option maxRecDepth 2000000 in
theorem c3phase1 : concmapRun (Hmap.NewMap 16 idh) c3p1 = Hmap.NewMap 24 idh := by rfl

set_option maxRecDepth 2000000 in
theorem c3phase2a : concmapRun (Hmap.NewMap 24 idh) c3p2a = c3mid := by rfl

set_option maxRecDepth 2000000 in
theorem c3phase2b : concmapRun c3mid c3p2b = Hmap.NewMap 36 idh := by rfl

theorem c3run_eq :
    concmapRun (Hmap.NewMap 16 idh) c3ops = concmapRun (Hmap.NewMap 36 idh) c3p3 := by
  show List.foldl concmapApply _ _ = _
  rw [c3ops, List.foldl_append, List.foldl_append, List.foldl_append]
  show concmapRun (concmapRun (concmapRun (concmapRun _ c3p1) c3p2a) c3p2b) c3p3 = _
  rw [c3phase1, c3phase2a, c3phase2b]

/-- C3 (counterexample).  Running 306 stores from a fresh `concmap` map
reaches, at the last insert, a post-state with `E = 64`, `D = 0`, `B = 36`:
the claimed condition `E ≥ 64 ∧ L < 2` holds, so the claim demands a
rebuild to `max((E − D)/4, 16) = 16` buckets — but the table still has its
36 buckets, because `resizeMap`'s sparseness trigger also requires
`E > 64`. -/
theorem claim3_counterexample :
    64 ≤ (concmapRun (Hmap.NewMap 16 idh) c3ops).statMapSize ∧
    (concmapRun (Hmap.NewMap 16 idh) c3ops).statMapSize
      < 2 * (concmapRun (Hmap.NewMap 16 idh) c3ops).buckets.length ∧
    (concmapRun (Hmap.NewMap 16 idh) c3ops).statDeleted = 0 ∧
    (concmapRun (Hmap.NewMap 16 idh) c3ops).buckets.length = 36 ∧
    Nat.max (((concmapRun (Hmap.NewMap 16 idh) c3ops).statMapSize
        - (concmapRun (Hmap.NewMap 16 idh) c3ops).statDeleted) / 4) 16 = 16 := by
  rw [c3run_eq]
  refine ⟨?_, ?_, ?_, ?_, ?_⟩ <;>
    set_option maxRecDepth 2000000 in decide

/-- C4.  `Range` does not stop when the visitor answers "stop": with a
visitor that returns `false` on every entry, both live entries of
`twoEntryMap` are still passed to the visitor — the loop body
`f(e.key, v)` discards the visitor's result, contradicting the documented
contract "applies the given function to each key-value pair until the
function returns false". -/
theorem claim4_failing :
    twoEntryMap.rangeVisits (fun _ _ => false) = [(0, 10), (1, 20)] := by decide

/-- C7 (counterexample).  `NewMap(0, hasher)` does not fail: it returns a
map with zero buckets to the caller, refuting "a zero-capacity table is
never returned". -/
theorem claim7_counterexample :
    (Hmap.NewMap 0 idh : Hmap Nat Nat).buckets.length = 0 ∧
    (Hmap.NewMap 0 idh : Hmap Nat Nat).keyedOpPanics = true := by decide

/-- C7 (amended).  Construction with capacity 0 succeeds and returns a
zero-bucket table; the failure surfaces only at the first keyed operation
(`Load`/`Store`/`Delete`), whose bucket-index computation divides by the
zero bucket count and panics at run time, while `Range` on the empty bucket
slice visits nothing. -/
theorem claim7_amended (hasher : K → Nat) (f : K → V → Bool) :
    (Hmap.NewMap 0 hasher : Hmap K V).buckets.length = 0 ∧
    (Hmap.NewMap 0 hasher : Hmap K V).keyedOpPanics = true ∧
    (Hmap.NewMap 0 hasher : Hmap K V).rangeVisits f = [] := by
  refine ⟨?_, ?_, ?_⟩ <;> simp [Hmap.NewMap, Hmap.keyedOpPanics, Hmap.rangeVisits]

/-- C6 (counterexample).  On `tombstonedPre` the sequence
`Store(5,1); Delete(5); Store(5,2)` leaves the tombstone counter at 0, not
at its prior value 1: the first store finds the tombstoned entry and
decrements the counter, which the claim's accounting ignores. -/
theorem claim6_counterexample :
    tombstonedPre.statDeleted = 1 ∧
    (((tombstonedPre.Store 5 1).Delete 5).Store 5 2).statDeleted = 0 ∧
    ((((tombstonedPre.Store 5 1).Delete 5).Store 5 2).statDeleted
      == tombstonedPre.statDeleted) = false ∧
    (((tombstonedPre.Store 5 1).Delete 5).Store 5 2).Load 5 = some 2 := by decide

theorem setFirstVal_length [DecidableEq K] (c : List (Entry K V)) (k : K) (w : Option V) :
    (setFirstVal c k w).length = c.length := by
  induction c with
  | nil => rfl
  | cons e es ih => simp only [setFirstVal]; split <;> simp [ih]

theorem chainFind_key [DecidableEq K] {c : List (Entry K V)} {k : K} {e : Entry K V}
    (h : chainFind c k = some e) : e.key = k := by
  have := List.find?_some h
  simpa [keyIs] using this

theorem chainFind_mem [DecidableEq K] {c : List (Entry K V)} {k : K} {e : Entry K V}
    (h : chainFind c k = some e) : e ∈ c :=
  List.mem_of_find?_eq_some h

theorem chainFind_setFirstVal [DecidableEq K] {c : List (Entry K V)} {k : K} {e : Entry K V}
    (h : chainFind c k = some e) (w : Option V) :
    chainFind (setFirstVal c k w) k = some { e with val := w } := by
  induction c with
  | nil => simp [chainFind] at h
  | cons x xs ih =>
      by_cases hx : x.key = k
      · have hfind : chainFind (x :: xs) k = some x := by
          simp [chainFind, keyIs, List.find?_cons_of_pos, hx]
        rw [hfind] at h
        cases h
        simp [setFirstVal, hx, chainFind, keyIs, List.find?_cons_of_pos]
      · have hxs : chainFind xs k = some e := by
          simpa [chainFind, keyIs, List.find?_cons_of_neg, hx] using h
        simp only [setFirstVal, if_neg hx]
        simpa [chainFind, keyIs, List.find?_cons_of_neg, hx] using ih hxs

theorem setFirstVal_tombLen [DecidableEq K] {c : List (Entry K V)} {k : K} {e : Entry K V}
    (h : chainFind c k = some e) (w : Option V) :
    tombLen (setFirstVal c k w) + (if e.val.isNone then 1 else 0)
      = tombLen c + (if w.isNone then 1 else 0) := by
  induction c with
  | nil => simp [chainFind] at h
  | cons x xs ih =>
      by_cases hx : x.key = k
      · have hfind : chainFind (x :: xs) k = some x := by
          simp [chainFind, keyIs, List.find?_cons_of_pos, hx]
        rw [hfind] at h
        cases h
        simp only [setFirstVal, if_pos hx, tombLen, List.filter_cons]
        by_cases hv : e.val.isNone <;> by_cases hw : w.isNone <;> simp [hv, hw]
      · have hxs : chainFind xs k = some e := by
          simpa [chainFind, keyIs, List.find?_cons_of_neg, hx] using h
        have := ih hxs
        simp only [setFirstVal, if_neg hx, tombLen, List.filter_cons]
        by_cases hv : x.val.isNone <;> simp [hv, tombLen] at this ⊢ <;> omega

theorem tombLen_le_length (c : List (Entry K V)) : tombLen c ≤ c.length :=
  List.length_filter_le _ c

theorem tombLen_pos_of_tomb [DecidableEq K] {c : List (Entry K V)} {k : K} {e : Entry K V}
    (h : chainFind c k = some e) (hv : e.val.isNone = true) : 1 ≤ tombLen c := by
  have hm : e ∈ c.filter (fun x => x.val.isNone) :=
    List.mem_filter.2 ⟨chainFind_mem h, hv⟩
  have : c.filter (fun x => x.val.isNone) ≠ [] := by
    intro hnil
    rw [hnil] at hm
    cases hm
  have := List.length_pos.2 this
  simpa [tombLen] using this

theorem getD_set_self (l : List α) (i : Nat) (x d : α) (h : i < l.length) :
    (l.set i x).getD i d = x := by
  have h2 : i < (l.set i x).length := by simpa using h
  rw [List.getD_eq_getElem _ _ h2]
  exact List.getElem_set_self h2

theorem bucketIdx_lt (m : Hmap K V) (k : K) (hB : m.buckets.length ≠ 0) :
    m.bucketIdx k < m.buckets.length :=
  Nat.mod_lt _ (Nat.pos_of_ne_zero hB)

theorem Store_hasher [DecidableEq K] (m : Hmap K V) (k : K) (v : V) :
    (m.Store k v).hasher = m.hasher := by
  simp only [Hmap.Store]
  split
  · rfl
  · split <;> rfl

theorem Delete_hasher [DecidableEq K] (m : Hmap K V) (k : K) :
    (m.Delete k).hasher = m.hasher := by
  simp only [Hmap.Delete]
  split
  · rfl
  · split <;> rfl

theorem bucketIdx_Store [DecidableEq K] (m : Hmap K V) (k q : K) (v : V) :
    (m.Store k v).bucketIdx q = m.bucketIdx q := by
  simp [Hmap.bucketIdx, Store_hasher, Store_buckets_length]

theorem bucketIdx_Delete [DecidableEq K] (m : Hmap K V) (k q : K) :
    (m.Delete k).bucketIdx q = m.bucketIdx q := by
  simp [Hmap.bucketIdx, Delete_hasher, Delete_buckets_length]

theorem chainAt_Store [DecidableEq K] (m : Hmap K V) (k : K) (v : V)
    (hB : m.buckets.length ≠ 0) :
    (m.Store k v).chainAt k =
      match chainFind (m.chainAt k) k with
      | some _ => setFirstVal (m.chainAt k) k (some v)
      | none => ⟨k, some v⟩ :: m.chainAt k := by
  have hlt := bucketIdx_lt m k hB
  simp only [Hmap.bucketIdx] at hlt
  simp only [Hmap.chainAt, Hmap.bucketIdx, Hmap.Store, if_neg hB, List.length_set]
  cases hfind :
      chainFind (m.buckets.getD (m.hasher k % m.buckets.length) ⟨[], 0⟩).chain k <;>
    dsimp only <;> simp only [List.length_set] <;> rw [getD_set_self _ _ _ _ hlt]

theorem statDeleted_Store [DecidableEq K] (m : Hmap K V) (k : K) (v : V)
    (hB : m.buckets.length ≠ 0) :
    (m.Store k v).statDeleted =
      match chainFind (m.chainAt k) k with
      | some e => (match e.val with
          | none => m.statDeleted - 1
          | some _ => m.statDeleted)
      | none => m.statDeleted := by
  simp only [Hmap.chainAt, Hmap.Store, if_neg hB]
  cases hfind : chainFind (m.buckets.getD (m.bucketIdx k) ⟨[], 0⟩).chain k <;> rfl

theorem chainAt_Delete [DecidableEq K] (m : Hmap K V) (k : K)
    (hB : m.buckets.length ≠ 0) :
    (m.Delete k).chainAt k =
      match chainFind (m.chainAt k) k with
      | some _ => setFirstVal (m.chainAt k) k none
      | none => m.chainAt k := by
  have hlt := bucketIdx_lt m k hB
  simp only [Hmap.bucketIdx] at hlt
  simp only [Hmap.chainAt, Hmap.bucketIdx, Hmap.Delete, if_neg hB, List.length_set]
  cases hfind :
      chainFind (m.buckets.getD (m.hasher k % m.buckets.length) ⟨[], 0⟩).chain k
  · rfl
  · dsimp only
    simp only [List.length_set]
    rw [getD_set_self _ _ _ _ hlt]

theorem statDeleted_Delete [DecidableEq K] (m : Hmap K V) (k : K)
    (hB : m.buckets.length ≠ 0) :
    (m.Delete k).statDeleted =
      match chainFind (m.chainAt k) k with
      | some e => (match e.val with
          | none => m.statDeleted
          | some _ => m.statDeleted + 1)
      | none => m.statDeleted := by
  simp only [Hmap.chainAt, Hmap.Delete, if_neg hB]
  cases hfind : chainFind (m.buckets.getD (m.bucketIdx k) ⟨[], 0⟩).chain k <;> rfl

theorem Load_eq [DecidableEq K] (m : Hmap K V) (k : K) (hB : m.buckets.length ≠ 0) :
    m.Load k =
      match chainFind (m.chainAt k) k with
      | some e => e.val
      | none => none := by
  simp [Hmap.Load, if_neg hB]

/-- C6 (amended).  `Store(k,v1); Delete(k); Store(k,v2)` always leaves
`Load k = some v2`; the tombstone counter returns to its value right after
the first store — that is, to its starting value when `k` was not
tombstoned at the start, and to one less when it was (the first store's
decrement).  The claimed "unchanged in all starting states" fails exactly
in the tombstoned case, see the counterexample. -/
theorem claim6_amended [DecidableEq K] (m : Hmap K V) (k : K) (v1 v2 : V)
    (hB : m.buckets.length ≠ 0) :
    (((m.Store k v1).Delete k).Store k v2).Load k = some v2 ∧
    (((m.Store k v1).Delete k).Store k v2).statDeleted
      = (if m.isTombstoned k then m.statDeleted - 1 else m.statDeleted) := by
  have hB1 : (m.Store k v1).buckets.length ≠ 0 := by
    rw [Store_buckets_length]; exact hB
  have hB2 : ((m.Store k v1).Delete k).buckets.length ≠ 0 := by
    rw [Delete_buckets_length]; exact hB1
  have h1 : ∃ e1 : Entry K V, chainFind ((m.Store k v1).chainAt k) k = some e1 ∧
      e1.val = some v1 ∧
      (m.Store k v1).statDeleted
        = (if m.isTombstoned k then m.statDeleted - 1 else m.statDeleted) := by
    rw [chainAt_Store m k v1 hB, statDeleted_Store m k v1 hB]
    unfold Hmap.isTombstoned
    rw [if_neg hB]
    cases hf : chainFind (m.chainAt k) k with
    | none =>
        refine ⟨⟨k, some v1⟩, ?_, rfl, by simp⟩
        simp [chainFind, keyIs, List.find?_cons_of_pos]
    | some e =>
        refine ⟨{ e with val := some v1 }, chainFind_setFirstVal hf _, rfl, ?_⟩
        cases hv : e.val <;> simp [hv]
  obtain ⟨e1, hf1, hv1, hd1⟩ := h1
  have h2c : chainFind (((m.Store k v1).Delete k).chainAt k) k
      = some { e1 with val := (none : Option V) } := by
    rw [chainAt_Delete _ k hB1, hf1]
    exact chainFind_setFirstVal hf1 none
  have h2d : ((m.Store k v1).Delete k).statDeleted = (m.Store k v1).statDeleted + 1 := by
    rw [statDeleted_Delete _ k hB1, hf1]
    simp [hv1]
  have h3c : chainFind ((((m.Store k v1).Delete k).Store k v2).chainAt k) k
      = some { e1 with val := some v2 } := by
    rw [chainAt_Store _ k v2 hB2, h2c]
    exact chainFind_setFirstVal h2c _
  have h3d : (((m.Store k v1).Delete k).Store k v2).statDeleted
      = (m.Store k v1).statDeleted := by
    rw [statDeleted_Store _ k v2 hB2, h2c]
    simp [h2d]
  constructor
  · rw [Load_eq _ k (by rw [Store_buckets_length]; exact hB2), h3c]
  · rw [h3d, hd1]

/-- Witness for `claim6_amended`: a concrete non-tombstoned starting state,
where the tombstone counter is restored exactly. -/
theorem claim6_amended_witness :
    (((((Hmap.NewMap 1 idh : Hmap Nat Nat).Store 5 0).Store 5 1).Delete 5).Store 5 2).Load 5
        = some 2 ∧
      (((((Hmap.NewMap 1 idh : Hmap Nat Nat).Store 5 0).Store 5 1).Delete 5).Store 5 2).statDeleted
        = (if ((Hmap.NewMap 1 idh : Hmap Nat Nat).Store 5 0).isTombstoned 5 then
            ((Hmap.NewMap 1 idh : Hmap Nat Nat).Store 5 0).statDeleted - 1
          else ((Hmap.NewMap 1 idh : Hmap Nat Nat).Store 5 0).statDeleted) :=
  claim6_amended ((Hmap.NewMap 1 idh : Hmap Nat Nat).Store 5 0) 5 1 2 (by decide)

/-- C5.  In the sequential model, `LoadOrStore` returns the existing live
value with `loaded = true` and leaves the map untouched when the key is
live; otherwise it performs exactly the inner `hmap.Store` (no resize runs
on this path) and returns `(v, false)`. -/
theorem claim5_loadOrStore [DecidableEq K] (m : Hmap K V) (k : K) (v : V) :
    (∀ w, m.Load k = some w → concmapLoadOrStore m k v = (m, w, true)) ∧
    (m.Load k = none → concmapLoadOrStore m k v = (m.Store k v, v, false)) := by
  constructor
  · intro w hw
    simp [concmapLoadOrStore, hw]
  · intro hn
    simp [concmapLoadOrStore, hn]

/-- Witness for `claim5_loadOrStore`: a present key is returned unchanged,
an absent key is stored via the plain inner `Store`. -/
theorem claim5_loadOrStore_witness :
    concmapLoadOrStore ((Hmap.NewMap 4 idh : Hmap Nat Nat).Store 5 7) 5 9
        = ((Hmap.NewMap 4 idh : Hmap Nat Nat).Store 5 7, 7, true) ∧
      concmapLoadOrStore ((Hmap.NewMap 4 idh : Hmap Nat Nat).Store 5 7) 6 9
        = (((Hmap.NewMap 4 idh : Hmap Nat Nat).Store 5 7).Store 6 9, 9, false) :=
  ⟨(claim5_loadOrStore ((Hmap.NewMap 4 idh : Hmap Nat Nat).Store 5 7) 5 9).1 7 (by decide),
   (claim5_loadOrStore ((Hmap.NewMap 4 idh : Hmap Nat Nat).Store 5 7) 6 9).2 (by decide)⟩

theorem sum_map_set (l : List α) (i : Nat) (x : α) (f : α → Nat) (h : i < l.length) :
    ((l.set i x).map f).sum + f (l.get ⟨i, h⟩) = (l.map f).sum + f x := by
  induction l generalizing i with
  | nil => simp at h
  | cons a t ih =>
      cases i with
      | zero => simp [List.set]; omega
      | succ j =>
          have hj : j < t.length := by simpa using h
          have := ih j hj
          simp only [List.set, List.map_cons, List.sum_cons, List.get] at this ⊢
          omega

theorem set_get_self (l : List α) (i : Nat) (h : i < l.length) :
    l.set i (l.get ⟨i, h⟩) = l := by
  induction l generalizing i with
  | nil => simp at h
  | cons a t ih =>
      cases i with
      | zero => rfl
      | succ j =>
          have hj : j < t.length := by simpa using h
          show a :: t.set j (t.get ⟨j, hj⟩) = a :: t
          rw [ih j hj]

theorem le_foldr_max {l : List Nat} {a : Nat} (h : a ∈ l) : a ≤ l.foldr Nat.max 0 := by
  induction l with
  | nil => cases h
  | cons x t ih =>
      rcases List.mem_cons.1 h with rfl | hm
      · exact Nat.le_max_left _ _
      · exact le_trans (ih hm) (Nat.le_max_right _ _)

theorem foldr_max_le {l : List Nat} {v : Nat} (h : ∀ a ∈ l, a ≤ v) :
    l.foldr Nat.max 0 ≤ v := by
  induction l with
  | nil => exact Nat.zero_le _
  | cons x t ih =>
      have hx := h x (List.mem_cons_self x t)
      have ht := ih (fun a ha => h a (List.mem_cons_of_mem _ ha))
      exact Nat.max_le.2 ⟨hx, ht⟩

theorem foldr_max_attained (l : List Nat) :
    l.foldr Nat.max 0 = 0 ∨ ∃ i, ∃ h : i < l.length, l.get ⟨i, h⟩ = l.foldr Nat.max 0 := by
  induction l with
  | nil => exact Or.inl rfl
  | cons x t ih =>
      rcases Nat.le_total (t.foldr Nat.max 0) x with hle | hle
      · refine Or.inr ⟨0, by simp, ?_⟩
        show x = (x :: t).foldr Nat.max 0
        simp only [List.foldr_cons]
        exact (Nat.max_eq_left hle).symm
      · have hmax : (x :: t).foldr Nat.max 0 = t.foldr Nat.max 0 := by
          simp only [List.foldr_cons]
          exact Nat.max_eq_right hle
        rcases ih with h0 | ⟨i, hi, hget⟩
        · left
          rw [hmax, h0]
        · refine Or.inr ⟨i + 1, Nat.succ_lt_succ hi, ?_⟩
          rw [hmax]
          exact hget

theorem foldr_max_mem (l : List Nat) :
    l.foldr Nat.max 0 = 0 ∨ l.foldr Nat.max 0 ∈ l := by
  rcases foldr_max_attained l with h0 | ⟨i, hi, hget⟩
  · exact Or.inl h0
  · right
    rw [← hget]
    exact List.get_mem _ _ hi

theorem statsInv_NewMap (c : Nat) (h : K → Nat) :
    StatsInv (Hmap.NewMap c h : Hmap K V) := by
  refine ⟨?_, ?_, ?_, ?_⟩
  · intro b hb
    have := List.eq_of_mem_replicate hb
    rw [this]
    rfl
  · simp [Hmap.NewMap, physCount, List.map_replicate, List.sum_replicate]
  · simp [Hmap.NewMap, tombCount, tombLen, List.map_replicate, List.sum_replicate]
  · simp only [Hmap.NewMap, maxChainLen, List.map_replicate]
    induction c with
    | zero => rfl
    | succ n ih => simpa [List.replicate_succ] using ih

theorem tombLen_cons_live (k : K) (v : V) (c : List (Entry K V)) :
    tombLen (⟨k, some v⟩ :: c) = tombLen c := by
  simp [tombLen, List.filter_cons]

theorem map_set_self_eq (l : List α) (i : Nat) (x : α) (f : α → Nat) (h : i < l.length)
    (hfx : f x = f (l.get ⟨i, h⟩)) : (l.set i x).map f = l.map f := by
  rw [List.map_set, hfx]
  have h2 : i < (l.map f).length := by simpa using h
  have hg : f (l.get ⟨i, h⟩) = (l.map f).get ⟨i, h2⟩ := by
    simp [List.get_eq_getElem, List.getElem_map]
  rw [hg, set_get_self]

theorem statsInv_Store [DecidableEq K] (m : Hmap K V) (k : K) (v : V) (hI : StatsInv m) :
    StatsInv (m.Store k v) := by
  obtain ⟨hbs, hsize, hdel, hlarge⟩ := hI
  by_cases hB : m.buckets.length = 0
  · simp only [Hmap.Store, if_pos hB]
    exact ⟨hbs, hsize, hdel, hlarge⟩
  have hlt : m.bucketIdx k < m.buckets.length := bucketIdx_lt m k hB
  have hbD : m.buckets.getD (m.bucketIdx k) ⟨[], 0⟩
      = m.buckets.get ⟨m.bucketIdx k, hlt⟩ := by
    rw [List.getD_eq_getElem _ _ hlt]
    rfl
  have hbmem : m.buckets.get ⟨m.bucketIdx k, hlt⟩ ∈ m.buckets := List.get_mem _ _ hlt
  have hbstat : (m.buckets.get ⟨m.bucketIdx k, hlt⟩).statEntries
      = (m.buckets.get ⟨m.bucketIdx k, hlt⟩).chain.length := hbs _ hbmem
  simp only [Hmap.Store, if_neg hB, hbD]
  cases hfind : chainFind (m.buckets.get ⟨m.bucketIdx k, hlt⟩).chain k with
  | some e =>
      refine ⟨?_, ?_, ?_, ?_⟩ <;> dsimp only
      · intro b' hb'
        rcases List.mem_or_eq_of_mem_set hb' with hmem | rfl
        · exact hbs b' hmem
        · dsimp only
          rw [hbstat, setFirstVal_length]
      · rw [hsize]
        show physCount m
          = ((m.buckets.set (m.bucketIdx k) _).map (fun b => b.chain.length)).sum
        rw [map_set_self_eq _ _ _ _ hlt (by dsimp only; rw [setFirstVal_length])]
        rfl
      · have hsum2 := sum_map_set m.buckets (m.bucketIdx k)
          ⟨setFirstVal (m.buckets.get ⟨m.bucketIdx k, hlt⟩).chain k (some v),
            (m.buckets.get ⟨m.bucketIdx k, hlt⟩).statEntries⟩
          (fun x => tombLen x.chain) hlt
        have htl := setFirstVal_tombLen hfind (some v)
        have hle : tombLen (m.buckets.get ⟨m.bucketIdx k, hlt⟩).chain
            ≤ (List.map (fun x => tombLen x.chain) m.buckets).sum := by
          refine List.single_le_sum (fun x _ => Nat.zero_le x) _ ?_
          exact List.mem_map_of_mem _ hbmem
        dsimp only at hsum2
        rw [hdel]
        unfold tombCount
        cases hv : e.val with
        | none =>
            rw [hv] at htl
            have htl2 : tombLen (setFirstVal
                  (m.buckets.get ⟨m.bucketIdx k, hlt⟩).chain k (some v)) + 1
                = tombLen (m.buckets.get ⟨m.bucketIdx k, hlt⟩).chain + 0 := htl
            show (List.map (fun b => tombLen b.chain) m.buckets).sum - 1
              = ((m.buckets.set (m.bucketIdx k)
                  ⟨setFirstVal (m.buckets.get ⟨m.bucketIdx k, hlt⟩).chain k (some v),
                    (m.buckets.get ⟨m.bucketIdx k, hlt⟩).statEntries⟩).map
                  (fun b => tombLen b.chain)).sum
            omega
        | some w =>
            rw [hv] at htl
            have htl2 : tombLen (setFirstVal
                  (m.buckets.get ⟨m.bucketIdx k, hlt⟩).chain k (some v)) + 0
                = tombLen (m.buckets.get ⟨m.bucketIdx k, hlt⟩).chain + 0 := htl
            show (List.map (fun b => tombLen b.chain) m.buckets).sum
              = ((m.buckets.set (m.bucketIdx k)
                  ⟨setFirstVal (m.buckets.get ⟨m.bucketIdx k, hlt⟩).chain k (some v),
                    (m.buckets.get ⟨m.bucketIdx k, hlt⟩).statEntries⟩).map
                  (fun b => tombLen b.chain)).sum
            omega
      · rw [hlarge]
        show maxChainLen m
          = ((m.buckets.set (m.bucketIdx k) _).map (fun b => b.chain.length)).foldr Nat.max 0
        rw [map_set_self_eq _ _ _ _ hlt (by dsimp only; rw [setFirstVal_length])]
        rfl
  | none =>
      refine ⟨?_, ?_, ?_, ?_⟩ <;> dsimp only
      · intro b' hb'
        rcases List.mem_or_eq_of_mem_set hb' with hmem | rfl
        · exact hbs b' hmem
        · dsimp only
          rw [hbstat]
          rfl
      · have hsum := sum_map_set m.buckets (m.bucketIdx k)
          ⟨⟨k, some v⟩ :: (m.buckets.get ⟨m.bucketIdx k, hlt⟩).chain,
            (m.buckets.get ⟨m.bucketIdx k, hlt⟩).statEntries + 1⟩
          (fun x => x.chain.length) hlt
        dsimp only at hsum
        rw [hsize]
        show physCount m + 1
          = ((m.buckets.set (m.bucketIdx k) _).map (fun b => b.chain.length)).sum
        unfold physCount
        simp only [List.length_cons] at hsum
        omega
      · have hsum2 := sum_map_set m.buckets (m.bucketIdx k)
          ⟨⟨k, some v⟩ :: (m.buckets.get ⟨m.bucketIdx k, hlt⟩).chain,
            (m.buckets.get ⟨m.bucketIdx k, hlt⟩).statEntries + 1⟩
          (fun x => tombLen x.chain) hlt
        dsimp only at hsum2
        rw [tombLen_cons_live] at hsum2
        rw [hdel]
        show tombCount m
          = ((m.buckets.set (m.bucketIdx k) _).map (fun b => tombLen b.chain)).sum
        unfold tombCount
        omega
      · -- the largest-bucket statistic
        rw [hbstat, hlarge]
        show (if (m.buckets.get ⟨m.bucketIdx k, hlt⟩).chain.length + 1 > maxChainLen m then
              maxChainLen m + 1
            else maxChainLen m)
          = ((m.buckets.set (m.bucketIdx k) _).map (fun b => b.chain.length)).foldr Nat.max 0
        have hmapset :
            ((m.buckets.set (m.bucketIdx k)
                ⟨⟨k, some v⟩ :: (m.buckets.get ⟨m.bucketIdx k, hlt⟩).chain,
                  (m.buckets.get ⟨m.bucketIdx k, hlt⟩).chain.length + 1⟩).map
              (fun b => b.chain.length))
            = (m.buckets.map (fun b => b.chain.length)).set (m.bucketIdx k)
                ((m.buckets.get ⟨m.bucketIdx k, hlt⟩).chain.length + 1) := by
          rw [List.map_set]
          rfl
        rw [hmapset]
        have hlen2 : m.bucketIdx k < (m.buckets.map (fun b => b.chain.length)).length := by
          simpa using hlt
        have hn_mem : (m.buckets.get ⟨m.bucketIdx k, hlt⟩).chain.length
            ∈ m.buckets.map (fun b => b.chain.length) :=
          List.mem_map_of_mem _ hbmem
        have hn_le : (m.buckets.get ⟨m.bucketIdx k, hlt⟩).chain.length ≤ maxChainLen m :=
          le_foldr_max hn_mem
        set n := (m.buckets.get ⟨m.bucketIdx k, hlt⟩).chain.length with hndef
        set L := maxChainLen m with hLdef
        by_cases hcond : n + 1 > L
        · rw [if_pos hcond]
          have hn_eq : n = L := by omega
          have hupper : ((m.buckets.map (fun b => b.chain.length)).set
              (m.bucketIdx k) (n + 1)).foldr Nat.max 0 ≤ n + 1 := by
            refine foldr_max_le ?_
            intro a ha
            rcases List.mem_or_eq_of_mem_set ha with hmem | rfl
            · have : a ≤ L := le_foldr_max hmem
              omega
            · exact Nat.le_refl _
          have hlower : n + 1 ≤ ((m.buckets.map (fun b => b.chain.length)).set
              (m.bucketIdx k) (n + 1)).foldr Nat.max 0 :=
            le_foldr_max (List.mem_set _ _ hlen2 _)
          omega
        · rw [if_neg hcond]
          have hcond2 : n + 1 ≤ L := by omega
          have hupper : ((m.buckets.map (fun b => b.chain.length)).set
              (m.bucketIdx k) (n + 1)).foldr Nat.max 0 ≤ L := by
            refine foldr_max_le ?_
            intro a ha
            rcases List.mem_or_eq_of_mem_set ha with hmem | rfl
            · exact le_foldr_max hmem
            · omega
          have hLfold : L = (m.buckets.map (fun b => b.chain.length)).foldr Nat.max 0 := by
            rw [hLdef]
            rfl
          rcases foldr_max_mem (m.buckets.map (fun b => b.chain.length)) with h0 | hLmem
          · rw [← hLfold] at h0
            omega
          · rw [← hLfold] at hLmem
            rcases List.mem_iff_getElem.1 hLmem with ⟨j, hj, hgetj⟩
            have hji : j ≠ m.bucketIdx k := by
              intro hq
              have hn2 : (m.buckets.map (fun b => b.chain.length))[j] = n := by
                subst hq
                rw [List.getElem_map, hndef, List.get_eq_getElem]
              omega
            have hj2 : j < ((m.buckets.map (fun b => b.chain.length)).set
                (m.bucketIdx k) (n + 1)).length := by simpa using hj
            have hset : ((m.buckets.map (fun b => b.chain.length)).set
                (m.bucketIdx k) (n + 1))[j]
                = (m.buckets.map (fun b => b.chain.length))[j] :=
              List.getElem_set_ne (Ne.symm hji) hj2
            have hmem2 : L ∈ (m.buckets.map (fun b => b.chain.length)).set
                (m.bucketIdx k) (n + 1) := by
              rw [← hgetj, ← hset]
              exact List.getElem_mem _
            have hlower : L ≤ ((m.buckets.map (fun b => b.chain.length)).set
                (m.bucketIdx k) (n + 1)).foldr Nat.max 0 := le_foldr_max hmem2
            omega

theorem statsInv_Delete [DecidableEq K] (m : Hmap K V) (k : K) (hI : StatsInv m) :
    StatsInv (m.Delete k) := by
  obtain ⟨hbs, hsize, hdel, hlarge⟩ := hI
  by_cases hB : m.buckets.length = 0
  · simp only [Hmap.Delete, if_pos hB]
    exact ⟨hbs, hsize, hdel, hlarge⟩
  have hlt : m.bucketIdx k < m.buckets.length := bucketIdx_lt m k hB
  have hbD : m.buckets.getD (m.bucketIdx k) ⟨[], 0⟩
      = m.buckets.get ⟨m.bucketIdx k, hlt⟩ := by
    rw [List.getD_eq_getElem _ _ hlt]
    rfl
  have hbmem : m.buckets.get ⟨m.bucketIdx k, hlt⟩ ∈ m.buckets := List.get_mem _ _ hlt
  have hbstat : (m.buckets.get ⟨m.bucketIdx k, hlt⟩).statEntries
      = (m.buckets.get ⟨m.bucketIdx k, hlt⟩).chain.length := hbs _ hbmem
  simp only [Hmap.Delete, if_neg hB, hbD]
  cases hfind : chainFind (m.buckets.get ⟨m.bucketIdx k, hlt⟩).chain k with
  | none => exact ⟨hbs, hsize, hdel, hlarge⟩
  | some e =>
      refine ⟨?_, ?_, ?_, ?_⟩ <;> dsimp only
      · intro b' hb'
        rcases List.mem_or_eq_of_mem_set hb' with hmem | rfl
        · exact hbs b' hmem
        · dsimp only
          rw [hbstat, setFirstVal_length]
      · rw [hsize]
        show physCount m
          = ((m.buckets.set (m.bucketIdx k) _).map (fun b => b.chain.length)).sum
        rw [map_set_self_eq _ _ _ _ hlt (by dsimp only; rw [setFirstVal_length])]
        rfl
      · have hsum2 := sum_map_set m.buckets (m.bucketIdx k)
          ⟨setFirstVal (m.buckets.get ⟨m.bucketIdx k, hlt⟩).chain k none,
            (m.buckets.get ⟨m.bucketIdx k, hlt⟩).statEntries⟩
          (fun x => tombLen x.chain) hlt
        have htl := setFirstVal_tombLen hfind (none : Option V)
        dsimp only at hsum2
        rw [hdel]
        unfold tombCount
        cases hv : e.val with
        | none =>
            rw [hv] at htl
            have htl2 : tombLen (setFirstVal
                  (m.buckets.get ⟨m.bucketIdx k, hlt⟩).chain k none) + 1
                = tombLen (m.buckets.get ⟨m.bucketIdx k, hlt⟩).chain + 1 := htl
            show (List.map (fun b => tombLen b.chain) m.buckets).sum
              = ((m.buckets.set (m.bucketIdx k)
                  ⟨setFirstVal (m.buckets.get ⟨m.bucketIdx k, hlt⟩).chain k none,
                    (m.buckets.get ⟨m.bucketIdx k, hlt⟩).statEntries⟩).map
                  (fun b => tombLen b.chain)).sum
            omega
        | some w =>
            rw [hv] at htl
            have htl2 : tombLen (setFirstVal
                  (m.buckets.get ⟨m.bucketIdx k, hlt⟩).chain k none) + 0
                = tombLen (m.buckets.get ⟨m.bucketIdx k, hlt⟩).chain + 1 := htl
            show (List.map (fun b => tombLen b.chain) m.buckets).sum + 1
              = ((m.buckets.set (m.bucketIdx k)
                  ⟨setFirstVal (m.buckets.get ⟨m.bucketIdx k, hlt⟩).chain k none,
                    (m.buckets.get ⟨m.bucketIdx k, hlt⟩).statEntries⟩).map
                  (fun b => tombLen b.chain)).sum
            omega
      · rw [hlarge]
        show maxChainLen m
          = ((m.buckets.set (m.bucketIdx k) _).map (fun b => b.chain.length)).foldr Nat.max 0
        rw [map_set_self_eq _ _ _ _ hlt (by dsimp only; rw [setFirstVal_length])]
        rfl

theorem statsInv_hRun [DecidableEq K] (m : Hmap K V) (ops : List (HOp K V))
    (hI : StatsInv m) : StatsInv (hRun m ops) := by
  induction ops generalizing m with
  | nil => exact hI
  | cons op rest ih =>
      cases op with
      | store k v => exact ih _ (statsInv_Store m k v hI)
      | del k => exact ih _ (statsInv_Delete m k hI)

theorem tombCount_le_physCount (m : Hmap K V) : tombCount m ≤ physCount m :=
  List.sum_le_sum (fun b _ => tombLen_le_length b.chain)

/-- C8.  After any sequence of `Store`/`Delete` operations from a freshly
constructed table, `statLargest` equals the maximum over all buckets of the
bucket's chain length, and every per-bucket `statEntries` counter equals its
chain length — so `statLargest` is also the maximum of the per-bucket
counters. -/
theorem claim8_largest [DecidableEq K] (c : Nat) (h : K → Nat) (ops : List (HOp K V)) :
    (hRun (Hmap.NewMap c h) ops).statLargest = maxChainLen (hRun (Hmap.NewMap c h) ops) ∧
    ∀ b ∈ (hRun (Hmap.NewMap c h) ops).buckets, b.statEntries = b.chain.length := by
  have hinv := statsInv_hRun (Hmap.NewMap c h) ops (statsInv_NewMap c h)
  exact ⟨hinv.2.2.2, hinv.1⟩

/-- C10.  After any sequence of `Store`/`Delete` operations from a freshly
constructed table, `statMapSize` equals the number of entries physically
present in the chains and `statDeleted` the number of tombstoned entries;
consequently `statDeleted ≤ statMapSize` and the `uint32` subtraction
`realEntries = entries − deleted` of the resize decision cannot
underflow. -/
theorem claim10_counters [DecidableEq K] (c : Nat) (h : K → Nat) (ops : List (HOp K V)) :
    (hRun (Hmap.NewMap c h) ops).statMapSize = physCount (hRun (Hmap.NewMap c h) ops) ∧
    (hRun (Hmap.NewMap c h) ops).statDeleted = tombCount (hRun (Hmap.NewMap c h) ops) ∧
    (hRun (Hmap.NewMap c h) ops).statDeleted ≤ (hRun (Hmap.NewMap c h) ops).statMapSize := by
  have hinv := statsInv_hRun (Hmap.NewMap c h) ops (statsInv_NewMap c h)
  refine ⟨hinv.2.1, hinv.2.2.1, ?_⟩
  rw [hinv.2.1, hinv.2.2.1]
  exact tombCount_le_physCount _

/-- Witness for `claim7_amended` at a concrete hasher and visitor. -/
theorem claim7_amended_witness :
    (Hmap.NewMap 0 idh : Hmap Nat Nat).buckets.length = 0 ∧
    (Hmap.NewMap 0 idh : Hmap Nat Nat).keyedOpPanics = true ∧
    (Hmap.NewMap 0 idh : Hmap Nat Nat).rangeVisits (fun _ _ => true) = [] :=
  claim7_amended idh (fun _ _ => true)

/-- Witness for `claim8_largest` on a concrete operation sequence. -/
theorem claim8_largest_witness :
    (hRun (Hmap.NewMap 2 idh) [HOp.store 0 1, HOp.store 2 3, HOp.del 0]).statLargest
        = maxChainLen (hRun (Hmap.NewMap 2 idh) [HOp.store 0 1, HOp.store 2 3, HOp.del 0]) ∧
      ∀ b ∈ (hRun (Hmap.NewMap 2 idh) [HOp.store 0 1, HOp.store 2 3, HOp.del 0]).buckets,
        b.statEntries = b.chain.length :=
  claim8_largest 2 idh [HOp.store 0 1, HOp.store 2 3, HOp.del 0]

/-- Witness for `claim10_counters` on a concrete operation sequence. -/
theorem claim10_counters_witness :
    (hRun (Hmap.NewMap 2 idh) [HOp.store 0 1, HOp.store 2 3, HOp.del 0]).statMapSize
        = physCount (hRun (Hmap.NewMap 2 idh) [HOp.store 0 1, HOp.store 2 3, HOp.del 0]) ∧
      (hRun (Hmap.NewMap 2 idh) [HOp.store 0 1, HOp.store 2 3, HOp.del 0]).statDeleted
        = tombCount (hRun (Hmap.NewMap 2 idh) [HOp.store 0 1, HOp.store 2 3, HOp.del 0]) ∧
      (hRun (Hmap.NewMap 2 idh) [HOp.store 0 1, HOp.store 2 3, HOp.del 0]).statDeleted
        ≤ (hRun (Hmap.NewMap 2 idh) [HOp.store 0 1, HOp.store 2 3, HOp.del 0]).statMapSize :=
  claim10_counters 2 idh [HOp.store 0 1, HOp.store 2 3, HOp.del 0]
